import Mathlib

/-!
Verification of the PvP battle engine and the player rating service
(`js/pvp.js`: modules `PvP` and `Player`).

The JavaScript is embedded shallowly:
* 9×9 grids (arrays of arrays of numbers) become functions `Fin 9 → Fin 9 → Nat`;
* the single mutable `battle` object becomes a `Battle` structure threaded
  explicitly through the operations; `null` becomes `Option Battle`;
* JS numbers holding integers become `Int` (or `Nat` where the source value is a
  length), and the two exact divisions in `endBattle` become `ℚ` divisions;
* external collaborators are parameters: `SudokuEngine.generate` becomes the
  `puzzle`/`solution` grid arguments, `Math.random` becomes an injected choice
  function for the shuffle, and the opponent name/avatar draws become string
  arguments;
* the side effects of `endBattle` (the `Player.updateELO` call and the
  completion callback) are returned as data: each terminating operation returns
  the new battle together with the ELO call it made (if any) and whether it
  invoked the completion callback;
* `setInterval`/`setTimeout`/`clearInterval`/`clearTimeout` are modelled by an
  `Engine` state holding the current battle plus the lists of live timer /
  timeout handles; firing a handle runs the corresponding closure body, which —
  exactly as in the source — reads the module-global `battle`, i.e. the
  engine's *current* battle.
-/

namespace PvP

/-- A 9×9 grid of numbers, as in the JS arrays of arrays. -/
abbrev Grid : Type := Fin 9 → Fin 9 → Nat

/-- Build a grid from row lists (out-of-range positions read 0); used for the
concrete boards in the witness/counterexample scenarios. -/
def gridOfRows (rows : List (List Nat)) : Grid :=
  fun r c => (rows.getD r.val []).getD c.val 0

/-- Pointwise array write `g[r][c] = v`. -/
def setCell (g : Grid) (r c : Fin 9) (v : Nat) : Grid :=
  fun r' c' => if r' = r ∧ c' = c then v else g r' c'

/-- An entry of the AI solving queue: `{ row, col, val }` (pvp.js line 41). -/
structure AICell where
  row : Fin 9
  col : Fin 9
  val : Nat
  deriving DecidableEq, Repr

/-- Values of `battle.result`. -/
inductive BattleResult where
  | win
  | lose
  | draw
  deriving DecidableEq, Repr

/-- The four reason strings passed to `endBattle` in the source. -/
inductive EndReason where
  | player_finished
  | ai_finished
  | timeout
  | quit
  deriving DecidableEq, Repr

/-- The battle session object (pvp.js lines 54-86).  `seed` is the opaque
value of `SudokuEngine.randomSeed()`.  `aiSpeedMin`/`aiSpeedMax` flatten the
`aiSpeed : {min, max}` record. -/
structure Battle where
  seed : Nat
  difficulty : String
  puzzle : Grid
  solution : Grid
  original : Grid
  playerBoard : Grid
  playerCellsFilled : Int
  playerMistakes : Int
  playerFinished : Bool
  aiName : String
  aiAvatar : String
  aiCellsFilled : Int
  aiTotalCells : Nat
  aiCellsQueue : List AICell
  aiFinished : Bool
  aiIntervalId : Option Nat
  aiSpeedMin : Nat
  aiSpeedMax : Nat
  timeRemaining : Int
  timerIntervalId : Option Nat
  started : Bool
  ended : Bool
  result : Option BattleResult
  eloDelta : Int

instance : DecidableEq Battle := fun a b => by
  cases a; cases b
  simp only [Battle.mk.injEq]
  infer_instance

/-- Constant `BATTLE_TIME = 600` (pvp.js line 8). -/
def BATTLE_TIME : Int := 600

/-- The `AI_SPEED` difficulty table (pvp.js lines 19-25), as min/max pairs. -/
def AI_SPEED (difficulty : String) : Option (Nat × Nat) :=
  if difficulty = "easy" then some (2000, 5000)
  else if difficulty = "medium" then some (3000, 7000)
  else if difficulty = "hard" then some (5000, 10000)
  else if difficulty = "expert" then some (7000, 14000)
  else if difficulty = "evil" then some (10000, 20000)
  else none

/-- The row-major scan of pvp.js lines 37-44: every cell with `puzzle[r][c] === 0`
is pushed tagged with `solution[r][c]`. -/
def emptyCellsOf (puzzle solution : Grid) : List AICell :=
  (List.finRange 9).flatMap (fun r =>
    (List.finRange 9).flatMap (fun c =>
      if puzzle r c = 0 then [⟨r, c, solution r c⟩] else []))

/-- One `[arr[i], arr[j]] = [arr[j], arr[i]]` step of `shuffleArray`
(pvp.js line 267); an out-of-range index leaves the array unchanged (the
source only ever produces in-range indices). -/
def swapIdx (l : List AICell) (i j : Nat) : List AICell :=
  match l[i]?, l[j]? with
  | some x, some y => (l.set i y).set j x
  | _, _ => l

/-- The loop of `shuffleArray` (pvp.js lines 264-269), counting `i` down from
`arr.length - 1` to `1`; `rnd i` is the sampled `Math.floor(Math.random() * (i + 1))`. -/
def shuffleGo (rnd : Nat → Nat) : Nat → List AICell → List AICell
  | 0, l => l
  | i + 1, l => shuffleGo rnd i (swapIdx l (i + 1) (rnd (i + 1)))

/-- Model of `shuffleArray(arr)` with the random draws injected as `rnd`. -/
def shuffleArray (rnd : Nat → Nat) (l : List AICell) : List AICell :=
  shuffleGo rnd (l.length - 1) l

/-- Model of `startBattle(difficulty)` (pvp.js lines 32-89).  The external inputs are
parameters: `seed` (`randomSeed()`), `puzzle`/`solution` (`generate`), `rnd`
(the shuffle's random draws) and `aiName`/`aiAvatar` (the roster picks).
`cloneGrid` produces copies that are equal as values, so `original` and
`playerBoard` both start as `puzzle`. -/
def startBattle (difficulty : String) (seed : Nat) (puzzle solution : Grid)
    (rnd : Nat → Nat) (aiName aiAvatar : String) : Battle :=
  let shuffled := shuffleArray rnd (emptyCellsOf puzzle solution)
  let speed := (AI_SPEED difficulty).getD (3000, 7000)
  { seed := seed
    difficulty := difficulty
    puzzle := puzzle
    solution := solution
    original := puzzle
    playerBoard := puzzle
    playerCellsFilled := 0
    playerMistakes := 0
    playerFinished := false
    aiName := aiName
    aiAvatar := aiAvatar
    aiCellsFilled := 0
    aiTotalCells := shuffled.length
    aiCellsQueue := shuffled
    aiFinished := false
    aiIntervalId := none
    aiSpeedMin := speed.1
    aiSpeedMax := speed.2
    timeRemaining := BATTLE_TIME
    timerIntervalId := none
    started := false
    ended := false
    result := none
    eloDelta := 0 }

/-- The summary object `endBattle` passes to `Player.updateELO`
(pvp.js lines 227-233). -/
structure MatchSummary where
  result : BattleResult
  opponent : String
  difficulty : String
  playerProgress : Int
  aiProgress : Int
  timeUsed : Int
  deriving DecidableEq, Repr

/-- One invocation `Player.updateELO(delta, matchData)`. -/
structure EloCall where
  delta : Int
  data : MatchSummary
  deriving DecidableEq, Repr

/-- The result/eloDelta case analysis of `endBattle` (pvp.js lines 200-223).
The final branch is `reason === 'quit'`: the four reason values are exhaustive,
and `quit` with `playerFinished` already true is caught by the first branch. -/
def decideResult (reason : EndReason) (b : Battle) : BattleResult × Int :=
  if reason = .player_finished ∨ b.playerFinished then (.win, 25)
  else if reason = .ai_finished then (.lose, -25)
  else if reason = .timeout then
    let playerPct : ℚ := (b.playerCellsFilled : ℚ) / (b.aiTotalCells : ℚ)
    let aiPct : ℚ := (b.aiCellsFilled : ℚ) / (b.aiTotalCells : ℚ)
    if playerPct > aiPct then (.win, 15)
    else if aiPct > playerPct then (.lose, -15)
    else (.draw, 0)
  else (.lose, -25)

/-- Progress percentage `Math.round((filled / total) * 100)` (pvp.js
lines 230-231).  `round` on ℚ is `⌊x + 1/2⌋`, which agrees with JS
`Math.round` on every finite value; when `total = 0` JS produces `NaN` where
the ℚ division produces 0 — no claim reads these fields in that state. -/
def progressPct (filled : Int) (total : Nat) : Int :=
  round (((filled : ℚ) / (total : ℚ)) * 100)

/-- Model of `endBattle(reason, callback)` (pvp.js lines 192-236).  Returns the new
battle, the `Player.updateELO` call it performed (`none` for the
already-ended early return), and whether the completion callback was invoked.
The source sets `ended = true` before the case analysis; no branch of the
case analysis reads `ended`, so computing the result from the pre-call fields
is equivalent.  The `clearInterval`/`clearTimeout` calls touch scheduler
state, modelled in `Engine.endBattleE` below. -/
def endBattle (reason : EndReason) (b : Battle) : Battle × Option EloCall × Bool :=
  if b.ended then (b, none, false)
  else
    let rd := decideResult reason b
    let b' := { b with ended := true, result := some rd.1, eloDelta := rd.2 }
    (b',
     some { delta := rd.2,
            data := { result := rd.1
                      opponent := b.aiName
                      difficulty := b.difficulty
                      playerProgress := progressPct b.playerCellsFilled b.aiTotalCells
                      aiProgress := progressPct b.aiCellsFilled b.aiTotalCells
                      timeUsed := BATTLE_TIME - b.timeRemaining } },
     true)

/-- The return object of a non-null `playerPlace`. -/
structure PlaceResult where
  isCorrect : Bool
  finished : Bool
  deriving DecidableEq, Repr

/-- The full-board agreement scan of pvp.js lines 154-163. -/
def boardSolved (board solution : Grid) : Bool :=
  decide (∀ r c, board r c = solution r c)

/-- Model of `playerPlace(row, col, num)` (pvp.js lines 141-174).  Returns the new
global battle together with the returned object (`none` models `null`). -/
def playerPlace (b? : Option Battle) (row col : Fin 9) (num : Nat) :
    Option Battle × Option PlaceResult :=
  match b? with
  | none => (none, none)
  | some b =>
    if b.ended ∨ b.playerFinished then (some b, none)
    else if b.original row col ≠ 0 then (some b, none)
    else
      let isCorrect : Bool := num == b.solution row col
      let b := { b with playerBoard := setCell b.playerBoard row col num }
      if isCorrect then
        let b := { b with playerCellsFilled := b.playerCellsFilled + 1 }
        if boardSolved b.playerBoard b.solution then
          (some { b with playerFinished := true }, some ⟨true, true⟩)
        else
          (some b, some ⟨true, false⟩)
      else
        (some { b with playerMistakes := b.playerMistakes + 1 }, some ⟨isCorrect, false⟩)

/-- Model of `playerErase(row, col)` (pvp.js lines 179-187). -/
def playerErase (b? : Option Battle) (row col : Fin 9) : Option Battle :=
  match b? with
  | none => none
  | some b =>
    if b.ended then some b
    else if b.original row col ≠ 0 then some b
    else
      let b :=
        if b.playerBoard row col ≠ 0 ∧ b.playerBoard row col = b.solution row col then
          { b with playerCellsFilled := b.playerCellsFilled - 1 }
        else b
      some { b with playerBoard := setCell b.playerBoard row col 0 }

/-- Model of `playerFinish(callback)` (pvp.js lines 241-245). -/
def playerFinish (b? : Option Battle) : Option Battle × Option EloCall × Bool :=
  match b? with
  | none => (none, none, false)
  | some b =>
    if b.ended then (some b, none, false)
    else
      let r := endBattle .player_finished { b with playerFinished := true }
      (some r.1, r.2.1, r.2.2)

/-- Model of `quitBattle(callback)` (pvp.js lines 250-253). -/
def quitBattle (b? : Option Battle) : Option Battle × Option EloCall × Bool :=
  match b? with
  | none => (none, none, false)
  | some b =>
    if b.ended then (some b, none, false)
    else
      let r := endBattle .quit b
      (some r.1, r.2.1, r.2.2)

/-- The scheduler-level engine state: the module-global `battle` plus the
handles of the `setInterval` timers and `setTimeout` timeouts that are
currently armed (created and not yet cleared; a timeout is also spent by
firing).  `nextId` supplies fresh handles. -/
structure Engine where
  battle : Option Battle
  liveTimers : List Nat
  liveAIs : List Nat
  nextId : Nat

/-- The engine before any `startBattle` (`let battle = null`). -/
def engine0 : Engine := { battle := none, liveTimers := [], liveAIs := [], nextId := 0 }

/-- Engine-level `startBattle`: the source only reassigns the global `battle`
(pvp.js line 54); it does not clear any previously armed interval or timeout. -/
def startBattleE (e : Engine) (difficulty : String) (seed : Nat)
    (puzzle solution : Grid) (rnd : Nat → Nat) (aiName aiAvatar : String) : Engine :=
  { e with battle := some (startBattle difficulty seed puzzle solution rnd aiName aiAvatar) }

/-- Model of `scheduleNextAICell` (pvp.js lines 113-136), arming side only: a fresh
timeout handle is created and stored in `battle.aiIntervalId` unless the
battle is ended or the AI finished. -/
def scheduleNextAICellE (e : Engine) : Engine :=
  match e.battle with
  | none => e
  | some b =>
    if b.ended ∨ b.aiFinished then e
    else
      { e with
        battle := some { b with aiIntervalId := some e.nextId }
        liveAIs := e.nextId :: e.liveAIs
        nextId := e.nextId + 1 }

/-- Model of `beginBattle` (pvp.js lines 94-111): set `started`, arm the 1-second
countdown interval, then arm the first AI timeout. -/
def beginBattleE (e : Engine) : Engine :=
  match e.battle with
  | none => e
  | some b =>
    if b.started then e
    else
      scheduleNextAICellE
        { e with
          battle := some { b with started := true, timerIntervalId := some e.nextId }
          liveTimers := e.nextId :: e.liveTimers
          nextId := e.nextId + 1 }

/-- Engine-level `endBattle`: the battle-level transition plus
`clearInterval(battle.timerIntervalId)` / `clearTimeout(battle.aiIntervalId)`. -/
def endBattleE (e : Engine) (reason : EndReason) : Engine × Option EloCall × Bool :=
  match e.battle with
  | none => (e, none, false)
  | some b =>
    if b.ended then (e, none, false)
    else
      let r := endBattle reason b
      ({ e with
         battle := some r.1
         liveTimers := match b.timerIntervalId with
           | some id => e.liveTimers.erase id
           | none => e.liveTimers
         liveAIs := match b.aiIntervalId with
           | some id => e.liveAIs.erase id
           | none => e.liveAIs },
       r.2.1, r.2.2)

/-- Firing of the countdown interval body (pvp.js lines 99-107) for handle
`id`.  The closure reads the module-global `battle` — the engine's *current*
battle, whichever session that now is; its only staleness check is
`battle.ended`.  An interval stays armed after firing. -/
def fireTimer (e : Engine) (id : Nat) : Engine × Option EloCall × Bool :=
  if id ∈ e.liveTimers then
    match e.battle with
    | none => (e, none, false)
    | some b =>
      if b.ended then (e, none, false)
      else
        let b := { b with timeRemaining := b.timeRemaining - 1 }
        if b.timeRemaining ≤ 0 then
          endBattleE { e with battle := some b } .timeout
        else
          ({ e with battle := some b }, none, false)
  else (e, none, false)

/-- Firing of the AI timeout body (pvp.js lines 119-135) for handle `id`: a
timeout is spent by firing; the body reads the module-global `battle`,
increments `aiCellsFilled`, and either finishes the AI or re-arms itself.
As in the source, the staleness check is only `battle.ended`. -/
def fireAI (e : Engine) (id : Nat) : Engine × Option EloCall × Bool :=
  if id ∈ e.liveAIs then
    let e := { e with liveAIs := e.liveAIs.erase id }
    match e.battle with
    | none => (e, none, false)
    | some b =>
      if b.ended then (e, none, false)
      else
        let b := { b with aiCellsFilled := b.aiCellsFilled + 1 }
        if (b.aiTotalCells : Int) ≤ b.aiCellsFilled then
          let b := { b with aiFinished := true }
          if b.playerFinished then ({ e with battle := some b }, none, false)
          else endBattleE { e with battle := some b } .ai_finished
        else
          (scheduleNextAICellE { e with battle := some b }, none, false)
  else (e, none, false)

end PvP

namespace Player

/-- One entry of `data.matchHistory` (pvp.js lines 652-657): the spread
summary plus the resulting rating, the delta, and the ISO date string (the
clock read is injected as the `date` argument of `updateELO`). -/
structure MatchRecord where
  data : PvP.MatchSummary
  elo : Int
  eloDelta : Int
  date : String
  deriving DecidableEq, Repr

/-- The fields of the persistent `data` object that `updateELO` / `getELO`
read or write (pvp.js lines 400-405 and 643-668); the purely puzzle-side
fields (quests, streaks, themes, …) are untouched by these functions and are
omitted. -/
structure PlayerData where
  elo : Int
  pvpWins : Int
  pvpLosses : Int
  pvpDraws : Int
  matchHistory : List MatchRecord
  coins : Int
  xp : Int
  level : Int
  deriving DecidableEq, Repr

/-- The PvP-relevant part of `createDefaultData()` (pvp.js lines 376-407). -/
def defaultData : PlayerData :=
  { elo := 1000, pvpWins := 0, pvpLosses := 0, pvpDraws := 0,
    matchHistory := [], coins := 0, xp := 0, level := 0 }

/-- JS `x || dflt` on a number: the only falsy integer value is 0. -/
def jsOr (x dflt : Int) : Int :=
  if x = 0 then dflt else x

/-- Model of `levelFromXP(xp) = Math.floor(Math.sqrt(xp / 100))` (pvp.js line 309).
For non-negative integer `xp`, `⌊√(xp / 100)⌋ = Nat.sqrt ⌊xp / 100⌋` by the
floor-of-square-root identity. -/
def levelFromXP (xp : Int) : Int :=
  Nat.sqrt (xp.toNat / 100)

/-- Model of `updateELO(delta, matchData)` (pvp.js lines 643-668), with the clock read
injected as `date`.  In the model `matchHistory` is always a list, so the
`if (!data.matchHistory)` repair is the identity. -/
def updateELO (delta : Int) (matchData : PvP.MatchSummary) (date : String)
    (d : PlayerData) : PlayerData :=
  let d := { d with elo := max 0 (jsOr d.elo 1000 + delta) }
  let d :=
    if matchData.result = .win then { d with pvpWins := jsOr d.pvpWins 0 + 1 }
    else if matchData.result = .lose then { d with pvpLosses := jsOr d.pvpLosses 0 + 1 }
    else { d with pvpDraws := jsOr d.pvpDraws 0 + 1 }
  let hist := ({ data := matchData, elo := d.elo, eloDelta := delta, date := date } :
      MatchRecord) :: d.matchHistory
  let d := { d with matchHistory := if hist.length > 20 then hist.dropLast else hist }
  if matchData.result = .win then
    { d with coins := d.coins + 15, xp := d.xp + 75, level := levelFromXP (d.xp + 75) }
  else d

/-- Model of `getELO()` (pvp.js line 670). -/
def getELO (d : PlayerData) : Int :=
  jsOr d.elo 1000

end Player

namespace PvP

/-- A fully valid Sudoku solution grid (each row, column and box holds 1–9),
used as the concrete `SudokuEngine.generate` output in scenarios. -/
def demoSolution : Grid := gridOfRows
  [[1, 2, 3, 4, 5, 6, 7, 8, 9],
   [4, 5, 6, 7, 8, 9, 1, 2, 3],
   [7, 8, 9, 1, 2, 3, 4, 5, 6],
   [2, 3, 1, 5, 6, 4, 8, 9, 7],
   [5, 6, 4, 8, 9, 7, 2, 3, 1],
   [8, 9, 7, 2, 3, 1, 5, 6, 4],
   [3, 1, 2, 6, 4, 5, 9, 7, 8],
   [6, 4, 5, 9, 7, 8, 3, 1, 2],
   [9, 7, 8, 3, 1, 2, 6, 4, 5]]

/-- Grid `demoSolution` with the two cells (0,0) and (0,1) blanked: a puzzle with
exactly two empty cells. -/
def demoPuzzle2 : Grid := gridOfRows
  [[0, 0, 3, 4, 5, 6, 7, 8, 9],
   [4, 5, 6, 7, 8, 9, 1, 2, 3],
   [7, 8, 9, 1, 2, 3, 4, 5, 6],
   [2, 3, 1, 5, 6, 4, 8, 9, 7],
   [5, 6, 4, 8, 9, 7, 2, 3, 1],
   [8, 9, 7, 2, 3, 1, 5, 6, 4],
   [3, 1, 2, 6, 4, 5, 9, 7, 8],
   [6, 4, 5, 9, 7, 8, 3, 1, 2],
   [9, 7, 8, 3, 1, 2, 6, 4, 5]]

/-- Grid `demoSolution` with only the cell (0,0) blanked: a puzzle one correct
placement away from completion. -/
def demoPuzzle1 : Grid := gridOfRows
  [[0, 2, 3, 4, 5, 6, 7, 8, 9],
   [4, 5, 6, 7, 8, 9, 1, 2, 3],
   [7, 8, 9, 1, 2, 3, 4, 5, 6],
   [2, 3, 1, 5, 6, 4, 8, 9, 7],
   [5, 6, 4, 8, 9, 7, 2, 3, 1],
   [8, 9, 7, 2, 3, 1, 5, 6, 4],
   [3, 1, 2, 6, 4, 5, 9, 7, 8],
   [6, 4, 5, 9, 7, 8, 3, 1, 2],
   [9, 7, 8, 3, 1, 2, 6, 4, 5]]

/-- A fresh session on the two-hole puzzle. -/
def demoBattle2 : Battle :=
  startBattle "medium" 7 demoPuzzle2 demoSolution (fun _ => 0) "SudokuMaster" "R1"

/-- A fresh session on the one-hole puzzle. -/
def demoBattle1 : Battle :=
  startBattle "medium" 7 demoPuzzle1 demoSolution (fun _ => 0) "GridNinja" "R2"

/-- The count, over grids, of non-original cells where the player board agrees
with the solution. -/
def matchCountG (original board solution : Grid) : Nat :=
  (Finset.univ.filter (fun q : Fin 9 × Fin 9 =>
    original q.1 q.2 = 0 ∧ board q.1 q.2 = solution q.1 q.2)).card

/-- The count of non-original cells whose `playerBoard` entry agrees with
`solution` — the quantity claim C3 relates to `playerCellsFilled`. -/
def matchCount (b : Battle) : Nat :=
  matchCountG b.original b.playerBoard b.solution

/-- Session states reachable from a fresh `startBattle` session by sequences
of `playerPlace` / `playerErase` calls in which `playerPlace` is never aimed
at a cell that already shows its correct value (the restriction of the
amended claim C3; the unrestricted claim is refuted by
`playerPlace_repeat_desyncs_filled`). -/
inductive SafeReach (p s : Grid) : Option Battle → Prop where
  | init (difficulty : String) (seed : Nat) (rnd : Nat → Nat) (aiName aiAvatar : String) :
      SafeReach p s (some (startBattle difficulty seed p s rnd aiName aiAvatar))
  | place {b? : Option Battle} (row col : Fin 9) (num : Nat) :
      SafeReach p s b? →
      (∀ b, b? = some b → b.playerBoard row col ≠ b.solution row col) →
      SafeReach p s (playerPlace b? row col num).1
  | erase {b? : Option Battle} (row col : Fin 9) :
      SafeReach p s b? →
      SafeReach p s (playerErase b? row col)

/-- An engine that ran `startBattle` and `beginBattle`: the countdown interval
for the first session is armed with handle 0 (and the first AI timeout with
handle 1). -/
def staleEngine1 : Engine :=
  beginBattleE (startBattleE engine0 "medium" 7 demoPuzzle2 demoSolution
    (fun _ => 0) "SudokuMaster" "R1")

/-- Engine `staleEngine1` after a second `startBattle` call: the first session is
superseded while its countdown interval (handle 0) is still armed —
`startBattle` clears nothing. -/
def staleEngine2 : Engine :=
  startBattleE staleEngine1 "medium" 8 demoPuzzle2 demoSolution
    (fun _ => 0) "GridNinja" "R2"

/-- A concrete match summary for rating-service scenarios. -/
def demoSummary : MatchSummary :=
  { result := .lose, opponent := "SudokuMaster", difficulty := "medium",
    playerProgress := 50, aiProgress := 60, timeUsed := 300 }

/-- A mid-battle state about to time out: the player has 40 of 50 cells, the
AI 30 of 50 — the progress comparison example of the rating-delta table. -/
def demoTimeoutBattle : Battle :=
  { demoBattle2 with
      playerCellsFilled := 40
      aiCellsFilled := 30
      aiTotalCells := 50 }

end PvP

namespace Player

/-- One `updateELO` invocation: the rating delta, the summary, and the clock
read used for the record's `date` field. -/
structure UpdIn where
  delta : Int
  data : PvP.MatchSummary
  date : String

/-- A sequence of rating updates applied in order. -/
def applyUpdates (d : PlayerData) (us : List UpdIn) : PlayerData :=
  us.foldl (fun d u => updateELO u.delta u.data u.date d) d

/-- The match record an update constructs when applied to state `d` (its
`elo` field is the rating after the clamped update, pvp.js lines 652-657). -/
def mkRecord (u : UpdIn) (d : PlayerData) : MatchRecord :=
  { data := u.data, elo := max 0 (jsOr d.elo 1000 + u.delta),
    eloDelta := u.delta, date := u.date }

/-- The match records a sequence of updates constructs, in application
order. -/
def recordsOf (d : PlayerData) : List UpdIn → List MatchRecord
  | [] => []
  | u :: rest => mkRecord u d :: recordsOf (updateELO u.delta u.data u.date d) rest

end Player

namespace PvP

/-- Moving the `k`-th element of a list to the front while writing `x` into
its slot permutes consing `x` onto the list. -/
theorem cons_get_set_perm (t : List AICell) :
    ∀ (k : Nat) (hk : k < t.length) (x : AICell),
      List.Perm (t.get ⟨k, hk⟩ :: t.set k x) (x :: t) := by
  induction t with
  | nil => intro k hk x; simp at hk
  | cons a s ih =>
    intro k hk x
    cases k with
    | zero =>
      simpa using List.Perm.swap x a s
    | succ k =>
      have hk' : k < s.length := by simpa using hk
      have h1 : List.Perm (s.get ⟨k, hk'⟩ :: a :: s.set k x)
          (a :: s.get ⟨k, hk'⟩ :: s.set k x) :=
        List.Perm.swap a (s.get ⟨k, hk'⟩) (s.set k x)
      have h2 : List.Perm (a :: s.get ⟨k, hk'⟩ :: s.set k x) (a :: x :: s) :=
        (ih k hk' x).cons a
      have h3 : List.Perm (a :: x :: s) (x :: a :: s) := List.Perm.swap x a s
      exact (h1.trans h2).trans h3

/-- The two-`set` element swap of `shuffleArray` is a permutation. -/
theorem set_get_set_perm (l : List AICell) :
    ∀ (i j : Nat) (hi : i < l.length) (hj : j < l.length),
      List.Perm ((l.set i (l.get ⟨j, hj⟩)).set j (l.get ⟨i, hi⟩)) l := by
  induction l with
  | nil => intro i j hi hj; simp at hi
  | cons a t ih =>
    intro i j hi hj
    match i, j with
    | 0, 0 =>
      simp
    | 0, k + 1 =>
      have hk : k < t.length := by simpa using hj
      exact cons_get_set_perm t k hk a
    | m + 1, 0 =>
      have hm : m < t.length := by simpa using hi
      exact cons_get_set_perm t m hm a
    | m + 1, k + 1 =>
      have hm : m < t.length := by simpa using hi
      have hk : k < t.length := by simpa using hj
      exact (ih m k hm hk).cons a

/-- Swapping via `swapIdx` only permutes the list. -/
theorem swapIdx_perm (l : List AICell) (i j : Nat) : List.Perm (swapIdx l i j) l := by
  unfold swapIdx
  split
  case _ x y hx hy =>
    have hi : i < l.length := by
      rw [List.getElem?_eq_some] at hx; exact hx.1
    have hj : j < l.length := by
      rw [List.getElem?_eq_some] at hy; exact hy.1
    have hxv : l.get ⟨i, hi⟩ = x := by
      rw [List.getElem?_eq_some] at hx
      simpa [List.get_eq_getElem] using hx.2
    have hyv : l.get ⟨j, hj⟩ = y := by
      rw [List.getElem?_eq_some] at hy
      simpa [List.get_eq_getElem] using hy.2
    rw [← hxv, ← hyv]
    exact set_get_set_perm l i j hi hj
  case _ =>
    exact List.Perm.refl l

/-- Every pass of the `shuffleArray` loop permutes the list. -/
theorem shuffleGo_perm (rnd : Nat → Nat) :
    ∀ (n : Nat) (l : List AICell), List.Perm (shuffleGo rnd n l) l := by
  intro n
  induction n with
  | zero => intro l; exact List.Perm.refl l
  | succ i ih =>
    intro l
    exact (ih _).trans (swapIdx_perm l (i + 1) (rnd (i + 1)))

/-- Shuffling via `shuffleArray` returns a permutation of its input, for every
sequence of random draws. -/
theorem shuffleArray_perm (rnd : Nat → Nat) (l : List AICell) :
    List.Perm (shuffleArray rnd l) l :=
  shuffleGo_perm rnd (l.length - 1) l

/-- A member of one inner list of the `emptyCells` scan carries that row and
column. -/
theorem mem_scanCell {p s : Grid} {r c : Fin 9} {x : AICell}
    (hx : x ∈ (if p r c = 0 then [(⟨r, c, s r c⟩ : AICell)] else [])) :
    x.row = r ∧ x.col = c := by
  split at hx
  · simp only [List.mem_singleton] at hx
    subst hx
    exact ⟨rfl, rfl⟩
  · simp at hx

/-- Membership in the scanned empty-cell list: exactly the cells empty in the
puzzle, tagged with the solution value. -/
theorem mem_emptyCellsOf {p s : Grid} {cell : AICell} :
    cell ∈ emptyCellsOf p s ↔
      p cell.row cell.col = 0 ∧ cell.val = s cell.row cell.col := by
  obtain ⟨r0, c0, v0⟩ := cell
  simp only [emptyCellsOf, List.mem_flatMap, List.mem_finRange, true_and]
  constructor
  · rintro ⟨r, c, hmem⟩
    split at hmem
    · simp only [List.mem_singleton, AICell.mk.injEq] at hmem
      obtain ⟨h1, h2, h3⟩ := hmem
      subst h1; subst h2; subst h3
      simp_all
    · simp at hmem
  · rintro ⟨h1, h2⟩
    refine ⟨r0, c0, ?_⟩
    simp [h1, h2]

/-- The scanned empty-cell list has no duplicates. -/
theorem nodup_emptyCellsOf (p s : Grid) : (emptyCellsOf p s).Nodup := by
  unfold emptyCellsOf
  rw [List.nodup_flatMap]
  refine ⟨?_, ?_⟩
  · intro r _
    rw [List.nodup_flatMap]
    refine ⟨?_, ?_⟩
    · intro c _
      split <;> simp
    · refine List.Pairwise.imp ?_ (List.nodup_finRange 9)
      intro c1 c2 hne x hx1 hx2
      exact hne ((mem_scanCell hx1).2 ▸ (mem_scanCell hx2).2)
  · refine List.Pairwise.imp ?_ (List.nodup_finRange 9)
    intro r1 r2 hne x hx1 hx2
    rw [List.mem_flatMap] at hx1 hx2
    obtain ⟨c1, -, hm1⟩ := hx1
    obtain ⟨c2, -, hm2⟩ := hx2
    exact hne ((mem_scanCell hm1).1 ▸ (mem_scanCell hm2).1)

/-- The scanned empty-cell list enumerates the empty cells without repeats,
so its length is the number of zero entries of the puzzle. -/
theorem length_emptyCellsOf (p s : Grid) :
    (emptyCellsOf p s).length
      = (Finset.univ.filter (fun q : Fin 9 × Fin 9 => p q.1 q.2 = 0)).card := by
  classical
  have hinj : Function.Injective
      (fun q : Fin 9 × Fin 9 => (⟨q.1, q.2, s q.1 q.2⟩ : AICell)) := by
    intro q1 q2 h
    simp only [AICell.mk.injEq] at h
    exact Prod.ext h.1 h.2.1
  rw [← Finset.card_image_of_injective _ hinj,
    ← List.toFinset_card_of_nodup (nodup_emptyCellsOf p s)]
  congr 1
  ext cell
  simp only [List.mem_toFinset, mem_emptyCellsOf, Finset.mem_image, Finset.mem_filter,
    Finset.mem_univ, true_and]
  constructor
  · rintro ⟨h1, h2⟩
    exact ⟨(cell.row, cell.col), h1, by cases cell; simp_all⟩
  · rintro ⟨q, hq, hEq⟩
    constructor
    · rw [← hEq]; exact hq
    · rw [← hEq]

end PvP

namespace PvP

/-- How a single board write moves the agreement count: the cell's old
contribution is exchanged for its new one. -/
theorem matchCountG_setCell (orig board sol : Grid) (r c : Fin 9) (v : Nat) :
    matchCountG orig (setCell board r c v) sol
      + (if orig r c = 0 ∧ board r c = sol r c then 1 else 0)
    = matchCountG orig board sol
      + (if orig r c = 0 ∧ v = sol r c then 1 else 0) := by
  classical
  unfold matchCountG
  rw [Finset.card_filter, Finset.card_filter,
    ← Finset.sum_erase_add _ _ (Finset.mem_univ (r, c)),
    ← Finset.sum_erase_add _ _ (Finset.mem_univ (r, c))]
  have hoff : ∀ q ∈ (Finset.univ : Finset (Fin 9 × Fin 9)).erase (r, c),
      (if orig q.1 q.2 = 0 ∧ setCell board r c v q.1 q.2 = sol q.1 q.2 then 1 else 0)
        = (if orig q.1 q.2 = 0 ∧ board q.1 q.2 = sol q.1 q.2 then 1 else 0) := by
    intro q hq
    have hne : ¬(q.1 = r ∧ q.2 = c) := by
      intro h
      exact (Finset.mem_erase.mp hq).1 (Prod.ext h.1 h.2)
    simp [setCell, hne]
  rw [Finset.sum_congr rfl hoff]
  have hpoint : setCell board r c v r c = v := by simp [setCell]
  simp only [hpoint]
  split_ifs <;> omega

end PvP

namespace PvP

/-- Guard of `playerPlace`: with an ended session, a finished player, or an
original target cell, the call returns `null` and changes nothing. -/
theorem playerPlace_noop (b : Battle) (row col : Fin 9) (num : Nat)
    (h : b.ended = true ∨ b.playerFinished = true ∨ b.original row col ≠ 0) :
    playerPlace (some b) row col num = (some b, none) := by
  simp only [playerPlace]
  rcases h with h | h | h
  · rw [if_pos (Or.inl h)]
  · rw [if_pos (Or.inr h)]
  · by_cases hg : b.ended = true ∨ b.playerFinished = true
    · rw [if_pos hg]
    · rw [if_neg hg, if_pos h]

/-- Behavior of `playerPlace` past the guards: the value is written unconditionally and
the three result shapes follow the correctness and completion checks. -/
theorem playerPlace_step (b : Battle) (row col : Fin 9) (num : Nat)
    (h1 : b.ended = false) (h2 : b.playerFinished = false) (h3 : b.original row col = 0) :
    playerPlace (some b) row col num =
      if num = b.solution row col then
        if boardSolved (setCell b.playerBoard row col num) b.solution then
          (some { b with
                    playerBoard := setCell b.playerBoard row col num
                    playerCellsFilled := b.playerCellsFilled + 1
                    playerFinished := true }, some ⟨true, true⟩)
        else
          (some { b with
                    playerBoard := setCell b.playerBoard row col num
                    playerCellsFilled := b.playerCellsFilled + 1 }, some ⟨true, false⟩)
      else
        (some { b with
                  playerBoard := setCell b.playerBoard row col num
                  playerMistakes := b.playerMistakes + 1 }, some ⟨false, false⟩) := by
  simp only [playerPlace]
  rw [if_neg (show ¬(b.ended = true ∨ b.playerFinished = true) by simp [h1, h2])]
  rw [if_neg (show ¬b.original row col ≠ 0 from fun hx => hx h3)]
  by_cases hc : num = b.solution row col
  · rw [if_pos (show (num == b.solution row col) = true from beq_iff_eq.mpr hc), if_pos hc]
  · rw [if_neg (show ¬(num == b.solution row col) = true by simp [hc]), if_neg hc]
    simp [hc]

/-- Guard of `playerErase`: an ended session or an original target cell makes the
call a no-op. -/
theorem playerErase_noop (b : Battle) (row col : Fin 9)
    (h : b.ended = true ∨ b.original row col ≠ 0) :
    playerErase (some b) row col = some b := by
  simp only [playerErase]
  rcases h with h | h
  · rw [if_pos h]
  · by_cases he : b.ended = true
    · rw [if_pos he]
    · rw [if_neg he, if_pos h]

/-- Behavior of `playerErase` past the guards: the cell is cleared, decrementing the
filled count exactly when it held its correct (nonzero) value. -/
theorem playerErase_step (b : Battle) (row col : Fin 9)
    (h1 : b.ended = false) (h3 : b.original row col = 0) :
    playerErase (some b) row col =
      some (if b.playerBoard row col ≠ 0 ∧ b.playerBoard row col = b.solution row col then
        { b with
            playerCellsFilled := b.playerCellsFilled - 1
            playerBoard := setCell b.playerBoard row col 0 }
      else
        { b with playerBoard := setCell b.playerBoard row col 0 }) := by
  simp only [playerErase]
  rw [if_neg (show ¬b.ended = true by simp [h1])]
  rw [if_neg (show ¬b.original row col ≠ 0 from fun hx => hx h3)]
  by_cases hc : b.playerBoard row col ≠ 0 ∧ b.playerBoard row col = b.solution row col
  · rw [if_pos hc, if_pos hc]
  · rw [if_neg hc, if_neg hc]

end PvP

namespace PvP

/-- Invariant carried by `SafeReach`: the session's solution grid is the
generator's, and `playerCellsFilled` counts exactly the agreeing non-original
cells. -/
theorem safeReach_invariant {p s : Grid} (hs : ∀ r c, s r c ≠ 0) :
    ∀ {b? : Option Battle}, SafeReach p s b? →
      ∀ b, b? = some b → b.solution = s ∧ b.playerCellsFilled = (matchCount b : Int) := by
  intro b? h
  induction h with
  | init difficulty seed rnd aiName aiAvatar =>
    intro b hb
    injection hb with hb
    subst hb
    refine ⟨rfl, ?_⟩
    have hempty : (Finset.univ.filter (fun q : Fin 9 × Fin 9 =>
        p q.1 q.2 = 0 ∧ p q.1 q.2 = s q.1 q.2)) = ∅ := by
      rw [Finset.filter_eq_empty_iff]
      rintro q - ⟨hq1, hq2⟩
      exact hs q.1 q.2 (hq2.symm.trans hq1)
    show (0 : Int) = ((matchCountG p p s : Nat) : Int)
    unfold matchCountG
    rw [hempty]
    simp
  | place row col num hre hguard ih =>
    rename_i b?0
    intro b hb
    cases b?0 with
    | none =>
      simp [playerPlace] at hb
    | some b0 =>
      obtain ⟨hsol, hinv⟩ := ih b0 rfl
      have hinv' : b0.playerCellsFilled
          = ((matchCountG b0.original b0.playerBoard b0.solution : Nat) : Int) := hinv
      have hg : b0.playerBoard row col ≠ b0.solution row col := hguard b0 rfl
      by_cases hg1 : b0.ended = true ∨ b0.playerFinished = true ∨ b0.original row col ≠ 0
      · rw [playerPlace_noop b0 row col num hg1] at hb
        injection hb with hb
        subst hb
        exact ⟨hsol, hinv⟩
      · push_neg at hg1
        obtain ⟨he, hf, ho⟩ := hg1
        have he' : b0.ended = false := by simpa using he
        have hf' : b0.playerFinished = false := by simpa using hf
        rw [playerPlace_step b0 row col num he' hf' ho] at hb
        have hkey := matchCountG_setCell b0.original b0.playerBoard b0.solution row col num
        rw [if_neg (fun hx => hg hx.2)] at hkey
        by_cases hc : num = b0.solution row col
        · rw [if_pos hc] at hb
          rw [if_pos ⟨ho, hc⟩] at hkey
          by_cases hsolv :
              boardSolved (setCell b0.playerBoard row col num) b0.solution = true
          · rw [if_pos hsolv] at hb
            injection hb with hb
            subst hb
            refine ⟨hsol, ?_⟩
            show b0.playerCellsFilled + 1
              = ((matchCountG b0.original (setCell b0.playerBoard row col num)
                  b0.solution : Nat) : Int)
            omega
          · rw [if_neg hsolv] at hb
            injection hb with hb
            subst hb
            refine ⟨hsol, ?_⟩
            show b0.playerCellsFilled + 1
              = ((matchCountG b0.original (setCell b0.playerBoard row col num)
                  b0.solution : Nat) : Int)
            omega
        · rw [if_neg hc] at hb
          rw [if_neg (fun hx => hc hx.2)] at hkey
          injection hb with hb
          subst hb
          refine ⟨hsol, ?_⟩
          show b0.playerCellsFilled
            = ((matchCountG b0.original (setCell b0.playerBoard row col num)
                b0.solution : Nat) : Int)
          omega
  | erase row col hre ih =>
    rename_i b?0
    intro b hb
    cases b?0 with
    | none =>
      simp [playerErase] at hb
    | some b0 =>
      obtain ⟨hsol, hinv⟩ := ih b0 rfl
      have hinv' : b0.playerCellsFilled
          = ((matchCountG b0.original b0.playerBoard b0.solution : Nat) : Int) := hinv
      have hsnz : b0.solution row col ≠ 0 := by rw [hsol]; exact hs row col
      by_cases hg1 : b0.ended = true ∨ b0.original row col ≠ 0
      · rw [playerErase_noop b0 row col hg1] at hb
        injection hb with hb
        subst hb
        exact ⟨hsol, hinv⟩
      · push_neg at hg1
        obtain ⟨he, ho⟩ := hg1
        have he' : b0.ended = false := by simpa using he
        rw [playerErase_step b0 row col he' ho] at hb
        have hkey := matchCountG_setCell b0.original b0.playerBoard b0.solution row col 0
        by_cases hc : b0.playerBoard row col ≠ 0 ∧
            b0.playerBoard row col = b0.solution row col
        · rw [if_pos hc] at hb
          rw [if_pos ⟨ho, hc.2⟩] at hkey
          rw [if_neg (show ¬(b0.original row col = 0 ∧ 0 = b0.solution row col) from
            fun hx => hsnz hx.2.symm)] at hkey
          injection hb with hb
          subst hb
          refine ⟨hsol, ?_⟩
          show b0.playerCellsFilled - 1
            = ((matchCountG b0.original (setCell b0.playerBoard row col 0)
                b0.solution : Nat) : Int)
          omega
        · rw [if_neg hc] at hb
          have hnm : ¬(b0.original row col = 0 ∧
              b0.playerBoard row col = b0.solution row col) := by
            rintro ⟨-, hbs⟩
            exact hc ⟨fun hz => hsnz (hz ▸ hbs).symm, hbs⟩
          rw [if_neg hnm] at hkey
          rw [if_neg (show ¬(b0.original row col = 0 ∧ 0 = b0.solution row col) from
            fun hx => hsnz hx.2.symm)] at hkey
          injection hb with hb
          subst hb
          refine ⟨hsol, ?_⟩
          show b0.playerCellsFilled
            = ((matchCountG b0.original (setCell b0.playerBoard row col 0)
                b0.solution : Nat) : Int)
          omega

end PvP

namespace PvP

/-- C2: termination is idempotent.  The first trigger sets `ended`, performs
exactly one rating update and fires the completion callback; a second
trigger with any reason leaves every field as the first left it, performs no
rating update, and does not fire the callback again. -/
theorem endBattle_idempotent (b : Battle) (r1 r2 : EndReason) (h : b.ended = false) :
    (endBattle r1 b).1.ended = true
    ∧ ((endBattle r1 b).2.1).isSome = true
    ∧ (endBattle r1 b).2.2 = true
    ∧ endBattle r2 (endBattle r1 b).1 = ((endBattle r1 b).1, none, false) := by
  have hmain : (endBattle r1 b).1 = { b with
      ended := true
      result := some (decideResult r1 b).1
      eloDelta := (decideResult r1 b).2 } := by
    unfold endBattle
    rw [if_neg (by simp [h])]
  refine ⟨by rw [hmain], ?_, ?_, ?_⟩
  · unfold endBattle
    rw [if_neg (by simp [h])]
    rfl
  · unfold endBattle
    rw [if_neg (by simp [h])]
  · conv_lhs => rw [hmain]
    conv_lhs => unfold endBattle
    rw [if_pos rfl, ← hmain]

/-- Witness for C2 at a concrete session and reason pair. -/
theorem endBattle_idempotent_witness :
    demoBattle2.ended = false
    ∧ ((endBattle .timeout demoBattle2).1.ended = true
      ∧ ((endBattle .timeout demoBattle2).2.1).isSome = true
      ∧ (endBattle .timeout demoBattle2).2.2 = true
      ∧ endBattle .ai_finished (endBattle .timeout demoBattle2).1
          = ((endBattle .timeout demoBattle2).1, none, false)) :=
  ⟨by decide, endBattle_idempotent demoBattle2 .timeout .ai_finished (by decide)⟩

end PvP

namespace PvP

/-- C4: result and rating delta follow the ordered cases — `player_finished`
or an already-finished player wins +25; else `ai_finished` loses −25; else
`timeout` compares `playerCellsFilled / aiTotalCells` with
`aiCellsFilled / aiTotalCells` (win +15 / lose −15 / draw 0); else `quit`
loses −25. -/
theorem endBattle_result_table (b : Battle) (reason : EndReason) (h : b.ended = false) :
    ((reason = .player_finished ∨ b.playerFinished = true) →
      (endBattle reason b).1.result = some .win ∧ (endBattle reason b).1.eloDelta = 25)
    ∧ (b.playerFinished = false → reason = .ai_finished →
      (endBattle reason b).1.result = some .lose ∧ (endBattle reason b).1.eloDelta = -25)
    ∧ (b.playerFinished = false → reason = .timeout →
      (((b.playerCellsFilled : ℚ) / (b.aiTotalCells : ℚ)
          > (b.aiCellsFilled : ℚ) / (b.aiTotalCells : ℚ) →
        (endBattle reason b).1.result = some .win ∧ (endBattle reason b).1.eloDelta = 15)
      ∧ ((b.playerCellsFilled : ℚ) / (b.aiTotalCells : ℚ)
          < (b.aiCellsFilled : ℚ) / (b.aiTotalCells : ℚ) →
        (endBattle reason b).1.result = some .lose ∧ (endBattle reason b).1.eloDelta = -15)
      ∧ ((b.playerCellsFilled : ℚ) / (b.aiTotalCells : ℚ)
          = (b.aiCellsFilled : ℚ) / (b.aiTotalCells : ℚ) →
        (endBattle reason b).1.result = some .draw ∧ (endBattle reason b).1.eloDelta = 0)))
    ∧ (b.playerFinished = false → reason = .quit →
      (endBattle reason b).1.result = some .lose
        ∧ (endBattle reason b).1.eloDelta = -25) := by
  have hmain : (endBattle reason b).1 = { b with
      ended := true
      result := some (decideResult reason b).1
      eloDelta := (decideResult reason b).2 } := by
    unfold endBattle
    rw [if_neg (by simp [h])]
  refine ⟨?_, ?_, ?_, ?_⟩
  · intro hp
    rw [hmain]
    unfold decideResult
    rw [if_pos hp]
    exact ⟨rfl, rfl⟩
  · intro hpf hr
    subst hr
    rw [hmain]
    unfold decideResult
    rw [if_neg (by simp [hpf]), if_pos rfl]
    exact ⟨rfl, rfl⟩
  · intro hpf hr
    subst hr
    rw [hmain]
    unfold decideResult
    rw [if_neg (by simp [hpf]), if_neg (by decide), if_pos rfl]
    refine ⟨?_, ?_, ?_⟩
    · intro hgt
      rw [if_pos hgt]
      exact ⟨rfl, rfl⟩
    · intro hlt
      rw [if_neg (by exact fun hx => absurd hlt (by exact not_lt_of_gt hx)), if_pos hlt]
      exact ⟨rfl, rfl⟩
    · intro heq
      rw [if_neg (by rw [heq]; exact lt_irrefl _), if_neg (by rw [heq]; exact lt_irrefl _)]
      exact ⟨rfl, rfl⟩
  · intro hpf hr
    subst hr
    rw [hmain]
    unfold decideResult
    rw [if_neg (by simp [hpf]), if_neg (by decide), if_neg (by decide)]
    exact ⟨rfl, rfl⟩

/-- Witness for C4: the table's timeout example (40 of 50 vs 30 of 50 wins
+15). -/
theorem endBattle_result_table_witness :
    demoTimeoutBattle.ended = false
    ∧ demoTimeoutBattle.playerFinished = false
    ∧ ((demoTimeoutBattle.playerCellsFilled : ℚ) / (demoTimeoutBattle.aiTotalCells : ℚ)
        > (demoTimeoutBattle.aiCellsFilled : ℚ) / (demoTimeoutBattle.aiTotalCells : ℚ))
    ∧ (endBattle .timeout demoTimeoutBattle).1.result = some .win
    ∧ (endBattle .timeout demoTimeoutBattle).1.eloDelta = 15 := by
  have hgt : (demoTimeoutBattle.playerCellsFilled : ℚ) / (demoTimeoutBattle.aiTotalCells : ℚ)
      > (demoTimeoutBattle.aiCellsFilled : ℚ) / (demoTimeoutBattle.aiTotalCells : ℚ) := by
    show ((40 : Int) : ℚ) / ((50 : Nat) : ℚ) > ((30 : Int) : ℚ) / ((50 : Nat) : ℚ)
    norm_num
  have h := (endBattle_result_table demoTimeoutBattle .timeout (by decide)).2.2.1
    (by decide) rfl
  exact ⟨by decide, by decide, hgt, (h.1 hgt).1, (h.1 hgt).2⟩

end PvP

namespace PvP

/-- C5 (amended): when a session exists and has not ended, `quitBattle`
terminates it with reason `quit`; it is scored as a forfeiting loss
(`lose`, −25) unless the player has already finished, in which case the
first branch of the result table scores it `win`, +25. -/
theorem quitBattle_spec (b : Battle) (h : b.ended = false) :
    (quitBattle (some b)).1 = some (endBattle .quit b).1
    ∧ (endBattle .quit b).1.ended = true
    ∧ (b.playerFinished = false →
        (endBattle .quit b).1.result = some .lose
          ∧ (endBattle .quit b).1.eloDelta = -25)
    ∧ (b.playerFinished = true →
        (endBattle .quit b).1.result = some .win
          ∧ (endBattle .quit b).1.eloDelta = 25) := by
  have hmain : (endBattle .quit b).1 = { b with
      ended := true
      result := some (decideResult .quit b).1
      eloDelta := (decideResult .quit b).2 } := by
    unfold endBattle
    rw [if_neg (by simp [h])]
  refine ⟨?_, by rw [hmain], ?_, ?_⟩
  · simp only [quitBattle]
    rw [if_neg (by simp [h])]
  · intro hpf
    rw [hmain]
    unfold decideResult
    rw [if_neg (by simp [hpf]), if_neg (by decide), if_neg (by decide)]
    exact ⟨rfl, rfl⟩
  · intro hpf
    rw [hmain]
    unfold decideResult
    rw [if_pos (Or.inr hpf)]
    exact ⟨rfl, rfl⟩

/-- Counterexample to C5 as stated: on the one-hole board, a correct
`playerPlace` completes the puzzle and sets `playerFinished` while the
session is still live (`ended` is false, so `quitBattle` is not a no-op);
quitting then scores `win`, +25 — not a forfeiting loss. -/
theorem quit_after_finish_scores_win :
    ((playerPlace (some demoBattle1) 0 0 1).1.map Battle.playerFinished = some true)
    ∧ ((playerPlace (some demoBattle1) 0 0 1).1.map Battle.ended = some false)
    ∧ ((quitBattle ((playerPlace (some demoBattle1) 0 0 1).1)).1.map Battle.result
        = some (some .win))
    ∧ ((quitBattle ((playerPlace (some demoBattle1) 0 0 1).1)).1.map Battle.eloDelta
        = some 25) := by
  exact ⟨by decide, by decide, by decide, by decide⟩

/-- Witness for the amended C5 at a live, unfinished session. -/
theorem quitBattle_spec_witness :
    demoBattle2.ended = false
    ∧ (quitBattle (some demoBattle2)).1 = some (endBattle .quit demoBattle2).1
    ∧ (endBattle .quit demoBattle2).1.ended = true
    ∧ (endBattle .quit demoBattle2).1.result = some .lose
    ∧ (endBattle .quit demoBattle2).1.eloDelta = -25 := by
  have h := quitBattle_spec demoBattle2 (by decide)
  exact ⟨by decide, h.1, h.2.1, (h.2.2.1 (by decide)).1, (h.2.2.1 (by decide)).2⟩

end PvP

namespace PvP

/-- C6: `playerPlace` returns `null` and leaves the session unchanged exactly
when there is no session, it has ended, the player already finished, or the
target cell is original; otherwise it writes the value unconditionally,
reports `isCorrect = (value == solution)`, increments only `playerMistakes`
on a wrong value, and sets `playerFinished` / returns `finished : true`
exactly when the (correct) write makes the whole board agree with the
solution. -/
theorem playerPlace_spec (b? : Option Battle) (row col : Fin 9) (num : Nat) :
    (playerPlace b? row col num = (b?, none) ↔
      ∀ b, b? = some b →
        (b.ended = true ∨ b.playerFinished = true ∨ b.original row col ≠ 0))
    ∧ (∀ b, b? = some b → b.ended = false → b.playerFinished = false →
        b.original row col = 0 →
        playerPlace b? row col num =
          if num = b.solution row col then
            if boardSolved (setCell b.playerBoard row col num) b.solution then
              (some { b with
                        playerBoard := setCell b.playerBoard row col num
                        playerCellsFilled := b.playerCellsFilled + 1
                        playerFinished := true }, some ⟨true, true⟩)
            else
              (some { b with
                        playerBoard := setCell b.playerBoard row col num
                        playerCellsFilled := b.playerCellsFilled + 1 },
               some ⟨true, false⟩)
          else
            (some { b with
                      playerBoard := setCell b.playerBoard row col num
                      playerMistakes := b.playerMistakes + 1 },
             some ⟨false, false⟩)) := by
  constructor
  · constructor
    · intro heq b hb
      subst hb
      by_contra hno
      push_neg at hno
      obtain ⟨he, hf, ho⟩ := hno
      rw [playerPlace_step b row col num (by simpa using he) (by simpa using hf)
        (by simpa using ho)] at heq
      split at heq
      · split at heq
        · exact Option.noConfusion (congrArg Prod.snd heq)
        · exact Option.noConfusion (congrArg Prod.snd heq)
      · exact Option.noConfusion (congrArg Prod.snd heq)
    · intro hcond
      cases b? with
      | none => rfl
      | some b => exact playerPlace_noop b row col num (hcond b rfl)
  · intro b hb h1 h2 h3
    subst hb
    exact playerPlace_step b row col num h1 h2 h3

/-- Witness for C6 at a live session and an empty target cell: the correct
value 1 at (0,0) of the two-hole board. -/
theorem playerPlace_spec_witness :
    (demoBattle2.ended = false ∧ demoBattle2.playerFinished = false
      ∧ demoBattle2.original 0 0 = 0)
    ∧ playerPlace (some demoBattle2) 0 0 1 =
        (if (1 : Nat) = demoBattle2.solution 0 0 then
          if boardSolved (setCell demoBattle2.playerBoard 0 0 1) demoBattle2.solution then
            (some { demoBattle2 with
                      playerBoard := setCell demoBattle2.playerBoard 0 0 1
                      playerCellsFilled := demoBattle2.playerCellsFilled + 1
                      playerFinished := true }, some ⟨true, true⟩)
          else
            (some { demoBattle2 with
                      playerBoard := setCell demoBattle2.playerBoard 0 0 1
                      playerCellsFilled := demoBattle2.playerCellsFilled + 1 },
             some ⟨true, false⟩)
        else
          (some { demoBattle2 with
                    playerBoard := setCell demoBattle2.playerBoard 0 0 1
                    playerMistakes := demoBattle2.playerMistakes + 1 },
           some ⟨false, false⟩)) :=
  ⟨⟨by decide, by decide, by decide⟩,
    (playerPlace_spec (some demoBattle2) 0 0 1).2 demoBattle2 rfl (by decide) (by decide)
      (by decide)⟩

end PvP

namespace PvP

/-- C3 (amended): in every state reachable from a fresh session by
`playerPlace`/`playerErase` calls in which `playerPlace` never targets a cell
already showing its correct value, `playerCellsFilled` equals the number of
non-original cells where `playerBoard` agrees with `solution`.  (Generated
solution grids have entries 1–9, whence the nonzero hypothesis; the
restriction on the call sequence is forced by
`playerPlace_repeat_desyncs_filled`.) -/
theorem playerCellsFilled_counts_matches {p s : Grid} (hs : ∀ r c, s r c ≠ 0)
    {b? : Option Battle} (hreach : SafeReach p s b?) (b : Battle) (hb : b? = some b) :
    b.playerCellsFilled = (matchCount b : Int) :=
  (safeReach_invariant hs hreach b hb).2

/-- Witness for the amended C3: a fresh session on the two-hole board
satisfies the invariant. -/
theorem playerCellsFilled_counts_matches_witness :
    (∀ r c, demoSolution r c ≠ 0)
    ∧ demoBattle2.playerCellsFilled = (matchCount demoBattle2 : Int) :=
  ⟨by decide, playerCellsFilled_counts_matches (by decide)
    (SafeReach.init "medium" 7 (fun _ => 0) "SudokuMaster" "R1") demoBattle2 rfl⟩

/-- Counterexample to C3 as stated: placing the correct value 1 twice into
the same empty cell (0,0) of the two-hole board double-increments
`playerCellsFilled` (pvp.js line 151 increments without inspecting the old
cell content), leaving the counter at 2 while exactly one non-original cell
agrees with the solution. -/
theorem playerPlace_repeat_desyncs_filled :
    ((playerPlace (playerPlace (some demoBattle2) 0 0 1).1 0 0 1).1.map
        (fun b => (b.playerCellsFilled, matchCount b)))
      = some (2, 1) := by
  decide

/-- C1 is refuted (code bug): after `startBattle` supersedes a begun session
without terminating it, the old session's countdown interval (handle 0)
remains armed — `startBattle` clears nothing.  When it fires, the interval
body reads the module-global `battle`, which now holds the *new* session;
its only staleness check, `battle.ended`, is false for the fresh session, so
the stale callback decrements the current session's `timeRemaining` from 600
to 599 instead of being a no-op. -/
theorem stale_timer_mutates_current_session :
    staleEngine1.battle.map Battle.timerIntervalId = some (some 0)
    ∧ staleEngine2.battle.map Battle.timerIntervalId = some none
    ∧ staleEngine2.battle.map Battle.ended = some false
    ∧ (0 ∈ staleEngine2.liveTimers)
    ∧ staleEngine2.battle.map Battle.timeRemaining = some 600
    ∧ (fireTimer staleEngine2 0).1.battle.map Battle.timeRemaining = some 599 := by
  exact ⟨by decide, by decide, by decide, by decide, by decide, by decide⟩

end PvP

namespace Player

/-- The rating component of `updateELO`: always `max 0 ((elo || 1000) + delta)`;
the counter, history and win-bonus updates never touch it. -/
theorem updateELO_elo (delta : Int) (s : PvP.MatchSummary) (date : String)
    (d : PlayerData) :
    (updateELO delta s date d).elo = max 0 (jsOr d.elo 1000 + delta) := by
  simp only [updateELO]
  split_ifs <;> rfl

/-- C7: every rating update clamps the resulting rating at a floor of 0 — it
is never negative; in particular a rating of 10 hit by a −25 loss becomes 0. -/
theorem updateELO_floor (d : PlayerData) (delta : Int) (s : PvP.MatchSummary)
    (date : String) :
    (updateELO delta s date d).elo = max 0 (jsOr d.elo 1000 + delta)
    ∧ 0 ≤ (updateELO delta s date d).elo
    ∧ (d.elo = 10 → (updateELO (-25) s date d).elo = 0) := by
  refine ⟨updateELO_elo delta s date d, ?_, ?_⟩
  · rw [updateELO_elo]
    exact le_max_left 0 _
  · intro h10
    rw [updateELO_elo, h10]
    rfl

/-- Witness for C7: a profile at rating 10, losing 25, lands exactly on the
floor. -/
theorem updateELO_floor_witness :
    ({ defaultData with elo := 10 } : PlayerData).elo = 10
    ∧ (updateELO (-25) PvP.demoSummary "2026-01-01" { defaultData with elo := 10 }).elo
        = 0 :=
  ⟨rfl, (updateELO_floor { defaultData with elo := 10 } (-25) PvP.demoSummary
    "2026-01-01").2.2 rfl⟩

/-- C10: a stored rating of exactly 0 is falsy, so `data.elo || 1000`
substitutes the default — the update computes `max 0 (1000 + delta)` and the
getter reports 1000; a 0 rating followed by a −25 loss yields 975, not 0. -/
theorem elo_zero_defaults (d : PlayerData) (delta : Int) (s : PvP.MatchSummary)
    (date : String) (h : d.elo = 0) :
    (updateELO delta s date d).elo = max 0 (1000 + delta)
    ∧ getELO d = 1000
    ∧ (updateELO (-25) s date d).elo = 975 := by
  have h1 : jsOr d.elo 1000 = 1000 := by rw [h]; rfl
  refine ⟨?_, ?_, ?_⟩
  · rw [updateELO_elo, h1]
  · unfold getELO
    rw [h1]
  · rw [updateELO_elo, h1]
    rfl

/-- Witness for C10 at a concrete zeroed profile. -/
theorem elo_zero_defaults_witness :
    ({ defaultData with elo := 0 } : PlayerData).elo = 0
    ∧ getELO { defaultData with elo := 0 } = 1000
    ∧ (updateELO (-25) PvP.demoSummary "2026-01-01" { defaultData with elo := 0 }).elo
        = 975 := by
  have h := elo_zero_defaults { defaultData with elo := 0 } (-25) PvP.demoSummary
    "2026-01-01" rfl
  exact ⟨rfl, h.2.1, h.2.2⟩

end Player

namespace Player

/-- The history component of one `updateELO`: the new record is prepended
and the oldest entry popped past 20. -/
theorem updateELO_matchHistory (u : UpdIn) (d : PlayerData) :
    (updateELO u.delta u.data u.date d).matchHistory
      = if (mkRecord u d :: d.matchHistory).length > 20
        then (mkRecord u d :: d.matchHistory).dropLast
        else mkRecord u d :: d.matchHistory := by
  simp only [updateELO, mkRecord]
  split_ifs <;> rfl

/-- The prepend-then-pop step equals keeping the 20 newest entries, as long
as the history was within bounds. -/
theorem history_take_step (rec : MatchRecord) (hist : List MatchRecord)
    (h : hist.length ≤ 20) :
    (if (rec :: hist).length > 20 then (rec :: hist).dropLast else rec :: hist)
      = (rec :: hist).take 20 := by
  split_ifs with hl
  · rw [List.dropLast_eq_take]
    congr 1
    simp only [List.length_cons, gt_iff_lt] at hl ⊢
    omega
  · rw [List.take_of_length_le]
    simp only [List.length_cons, gt_iff_lt, not_lt] at hl
    exact hl

/-- Truncating before appending on the right does not change a truncation. -/
theorem take_append_take (A B : List MatchRecord) (n : Nat) :
    (A ++ B.take n).take n = (A ++ B).take n := by
  rw [List.take_append_eq_append_take, List.take_append_eq_append_take, List.take_take]
  congr 2
  exact Nat.min_eq_left (Nat.sub_le n A.length)

/-- Histories along any update sequence stay within 20 and equal the
truncated reversed record sequence. -/
theorem applyUpdates_history (us : List UpdIn) :
    ∀ d : PlayerData, d.matchHistory.length ≤ 20 →
      (applyUpdates d us).matchHistory
        = ((recordsOf d us).reverse ++ d.matchHistory).take 20 := by
  induction us with
  | nil =>
    intro d h
    simp only [applyUpdates, List.foldl_nil, recordsOf, List.reverse_nil, List.nil_append]
    rw [List.take_of_length_le h]
  | cons u rest ih =>
    intro d h
    have hstep : (updateELO u.delta u.data u.date d).matchHistory
        = (mkRecord u d :: d.matchHistory).take 20 := by
      rw [updateELO_matchHistory]
      exact history_take_step _ _ h
    have hlen : (updateELO u.delta u.data u.date d).matchHistory.length ≤ 20 := by
      rw [hstep]
      simp [List.length_take]
    have hrec := ih (updateELO u.delta u.data u.date d) hlen
    simp only [applyUpdates, List.foldl_cons] at hrec ⊢
    rw [hrec, hstep, recordsOf]
    simp only [List.reverse_cons, List.append_assoc, List.singleton_append]
    exact take_append_take _ _ 20

/-- C8: from the default profile, after any sequence of rating updates the
match history holds the at most 20 most recent records, newest first: each
update prepends its record, and past 20 the oldest entry is evicted. -/
theorem matchHistory_bounded (us : List UpdIn) :
    (applyUpdates defaultData us).matchHistory
      = ((recordsOf defaultData us).reverse).take 20
    ∧ (applyUpdates defaultData us).matchHistory.length ≤ 20 := by
  have h : (applyUpdates defaultData us).matchHistory
      = ((recordsOf defaultData us).reverse).take 20 := by
    have h0 := applyUpdates_history us defaultData (by simp [defaultData])
    simpa [defaultData] using h0
  refine ⟨h, ?_⟩
  rw [h]
  simp [List.length_take]

end Player

namespace PvP

/-- C9: for every generated puzzle/solution pair and every difficulty,
`aiTotalCells` equals the number of zero cells of the puzzle, and
`aiCellsQueue` is a permutation of exactly those empty cells, each tagged
with its solution value (each empty cell appearing exactly once). -/
theorem startBattle_aiQueue (difficulty : String) (seed : Nat) (p s : Grid)
    (rnd : Nat → Nat) (aiName aiAvatar : String) :
    (startBattle difficulty seed p s rnd aiName aiAvatar).aiTotalCells
      = (Finset.univ.filter (fun q : Fin 9 × Fin 9 => p q.1 q.2 = 0)).card
    ∧ List.Perm (startBattle difficulty seed p s rnd aiName aiAvatar).aiCellsQueue
        (emptyCellsOf p s)
    ∧ (∀ cell ∈ (startBattle difficulty seed p s rnd aiName aiAvatar).aiCellsQueue,
        p cell.row cell.col = 0 ∧ cell.val = s cell.row cell.col)
    ∧ (∀ r c : Fin 9, p r c = 0 →
        (startBattle difficulty seed p s rnd aiName aiAvatar).aiCellsQueue.count
          ⟨r, c, s r c⟩ = 1) := by
  have hperm : List.Perm (startBattle difficulty seed p s rnd aiName aiAvatar).aiCellsQueue
      (emptyCellsOf p s) := shuffleArray_perm rnd (emptyCellsOf p s)
  refine ⟨?_, hperm, ?_, ?_⟩
  · rw [show (startBattle difficulty seed p s rnd aiName aiAvatar).aiTotalCells
        = (startBattle difficulty seed p s rnd aiName aiAvatar).aiCellsQueue.length
        from rfl]
    rw [hperm.length_eq, length_emptyCellsOf]
  · intro cell hc
    exact mem_emptyCellsOf.mp (hperm.mem_iff.mp hc)
  · intro r c hrc
    rw [hperm.count_eq]
    exact List.count_eq_one_of_mem (nodup_emptyCellsOf p s)
      (mem_emptyCellsOf.mpr ⟨hrc, rfl⟩)

/-- Witness for C9 at the two-hole board: totals, tagging and multiplicity at
the empty cell (0,0). -/
theorem startBattle_aiQueue_witness :
    demoPuzzle2 0 0 = 0
    ∧ demoBattle2.aiTotalCells
        = (Finset.univ.filter (fun q : Fin 9 × Fin 9 => demoPuzzle2 q.1 q.2 = 0)).card
    ∧ demoBattle2.aiCellsQueue.count ⟨0, 0, demoSolution 0 0⟩ = 1 := by
  have h := startBattle_aiQueue "medium" 7 demoPuzzle2 demoSolution (fun _ => 0)
    "SudokuMaster" "R1"
  exact ⟨by decide, h.1, h.2.2.2 0 0 (by decide)⟩

end PvP
